import Mathlib

/-!
Verification of the EFO data pipeline (OLS extractor, transformer, loader,
orchestrator) against its specification.  Python functions are shallowly
embedded as Lean definitions: Python strings become Lean strings, Python
dicts become association lists or functions, HTTP responses become
inductive outcome types, and the SHA-256 digest of the content hash is
modelled by its preimage (the canonical content string), since equal
preimages give equal digests.
-/

namespace EfoPipeline

/-- Characters removed by the Python str.strip() method (the ASCII
whitespace subset, which is what the pipeline data contains). -/
def isPySpace (c : Char) : Bool :=
  c = ' ' || c = '\t' || c = '\n' || c = '\r' || c = '\x0b' || c = '\x0c'

/-- Python str.strip(): remove leading and trailing whitespace. -/
def pyStrip (s : String) : String :=
  ⟨((s.data.dropWhile isPySpace).reverse.dropWhile isPySpace).reverse⟩

/-- Lexicographic code-point comparison of character lists, the order
Python uses when sorting strings. -/
def lexLe : List Char → List Char → Bool
  | [], _ => true
  | _ :: _, [] => false
  | a :: as, b :: bs => if a = b then lexLe as bs else decide (a < b)

/-- The order Python sorted() applies to strings. -/
def pyStrLe (a b : String) : Prop := lexLe a.data b.data = true

instance : DecidableRel pyStrLe :=
  fun a b => inferInstanceAs (Decidable (lexLe a.data b.data = true))

/-- Python sorted() on a list of strings. -/
def pySorted (l : List String) : List String :=
  List.insertionSort pyStrLe l

/-- Python ",".join(l). -/
def joinComma : List String → String
  | [] => ""
  | [s] => s
  | s :: ss => s ++ "," ++ joinComma ss

/-- The dict produced by extract_term_data in ols_client.py: the four
fields pulled out of one raw OLS term object. -/
structure RawTerm where
  term_id : String
  iri : String
  label : String
  description : Option String
deriving DecidableEq, Repr

/-- The dict produced by normalize_term in efo_transformer.py. -/
structure NormTerm where
  term_id : String
  iri : String
  label : String
  description : Option String
  content_hash : Option String
deriving DecidableEq, Repr

/-- Translation of normalize_term (efo_transformer.py, lines 16 to 49):
strip the three required fields, reject the record if any is empty, and
sanitise the description.  Note that the sanitising branch is guarded by
the Python truthiness test `if description:`, so a present-but-empty
description string is returned unchanged. -/
def normalize_term (t : RawTerm) : Option NormTerm :=
  let term_id := pyStrip t.term_id
  let iri := pyStrip t.iri
  let label := pyStrip t.label
  if term_id = "" ∨ iri = "" ∨ label = "" then none
  else
    let description :=
      match t.description with
      | none => none
      | some d =>
        if d = "" then some d
        else
          let ds := pyStrip d
          if ds = "" then none else some ds
    some ⟨term_id, iri, label, description, none⟩

/-- The behaviour of normalize_term as the amended claim C7 describes it:
Invalid exactly when a required field is empty after trimming; on success
the triad is trimmed, a truthy description is trimmed and collapsed to
absent when empty after trimming, and a present-but-empty description is
passed through unchanged. -/
def spec_description_norm : Option String → Option String
  | none => none
  | some d =>
    if d = "" then some ""
    else if pyStrip d = "" then none else some (pyStrip d)

/-- One-shot statement of the amended C7 contract for normalize_term. -/
def normalize_term_spec (t : RawTerm) : Option NormTerm :=
  if pyStrip t.term_id = "" ∨ pyStrip t.iri = "" ∨ pyStrip t.label = "" then none
  else
    some ⟨pyStrip t.term_id, pyStrip t.iri, pyStrip t.label,
          spec_description_norm t.description, none⟩

/-- Translation of compute_term_hash (efo_transformer.py, lines 173 to
209), modelled by the SHA-256 preimage it builds: the concatenation of
label, description (empty string when falsy), the sorted comma-joined
synonyms and the sorted comma-joined parent IRIs, separated by the pipe
character.  The source applies hashlib.sha256 to exactly this string, so
equal values here give equal digests. -/
def compute_term_hash (term : NormTerm) (synonyms_list parent_iris : List String) : String :=
  term.label ++ "|" ++ term.description.getD "" ++ "|"
    ++ joinComma (pySorted synonyms_list) ++ "|" ++ joinComma (pySorted parent_iris)

/-- Translation of add_content_hash_to_term (efo_transformer.py, lines
212 to 231). -/
def add_content_hash_to_term (term : NormTerm) (synonyms_list parent_iris : List String) : NormTerm :=
  { term with content_hash := some (compute_term_hash term synonyms_list parent_iris) }

/-- Translation of normalize_synonyms (efo_transformer.py, lines 52 to
71): keep the non-empty strings, strip them, drop those empty after
stripping, and pair each with the owning term id. -/
def normalize_synonyms (term_id : String) (synonyms_list : List String) : List (String × String) :=
  synonyms_list.filterMap fun syn =>
    if syn = "" then none
    else if pyStrip syn = "" then none else some (term_id, pyStrip syn)

/-- The outcome of one attempt of the per-URL retry loop in
batch_fetch_parents_sync (ols_client.py, lines 386 to 456), one
constructor per branch of the try block: an HTTP 200 carrying the parent
IRIs extracted from the payload, HTTP 404, HTTP 429, any other HTTP
status, and the five exception handlers. -/
inductive SyncResp where
  | ok (iris : List String)
  | notFound
  | rateLimited
  | httpOther
  | sslError
  | connError
  | timeoutError
  | requestError
  | otherError
deriving DecidableEq, Repr

/-- The retry loop of batch_fetch_parents_sync for one URL, over the
responses of the remaining attempts (the list has one entry per attempt
still available; an empty tail means the current attempt is the last,
attempt == max_retries - 1).  Returns the value the loop stores in
results[url], or none when the loop exhausts all attempts without ever
storing an entry: an HTTP 429 sleeps and continues without storing
anything, while every other failure either breaks after storing or
stores the empty list on the final attempt. -/
def syncRetryLoop : List SyncResp → Option (List String)
  | [] => none
  | SyncResp.ok iris :: _ => some iris
  | SyncResp.notFound :: _ => some []
  | SyncResp.rateLimited :: rest => syncRetryLoop rest
  | SyncResp.httpOther :: rest => if rest = [] then some [] else syncRetryLoop rest
  | SyncResp.sslError :: _ => some []
  | SyncResp.connError :: rest => if rest = [] then some [] else syncRetryLoop rest
  | SyncResp.timeoutError :: rest => if rest = [] then some [] else syncRetryLoop rest
  | SyncResp.requestError :: _ => some []
  | SyncResp.otherError :: _ => some []

/-- Translation of batch_fetch_parents_sync (ols_client.py, lines 348 to
476): each URL comes with the responses of its three attempts
(max_retries = 3); the results dict holds an entry exactly when the
retry loop stored one, in processing order. -/
def batch_fetch_parents_sync
    (inputs : List (String × (SyncResp × SyncResp × SyncResp))) :
    List (String × List String) :=
  inputs.filterMap fun p =>
    (syncRetryLoop [p.2.1, p.2.2.1, p.2.2.2]).map fun iris => (p.1, iris)

/-- The outcome of one request inside fetch_parent_iris_async
(ols_client.py, lines 222 to 242): HTTP 200 with the extracted IRIs, any
other status, or an exception caught by the handler. -/
inductive AsyncResp where
  | ok (iris : List String)
  | nonOk
  | raised
deriving DecidableEq, Repr

/-- Translation of fetch_parent_iris_async: only a 200 response yields
IRIs; every other path returns the empty list. -/
def fetch_parent_iris_async : AsyncResp → List String
  | AsyncResp.ok iris => iris
  | AsyncResp.nonOk => []
  | AsyncResp.raised => []

/-- What asyncio.gather hands back for one task in
batch_fetch_parents_async: either the value of the coroutine or an
exception object (return_exceptions=True). -/
inductive GatherOutcome where
  | value (r : AsyncResp)
  | exc
deriving DecidableEq, Repr

/-- Translation of the result-collection loop of
batch_fetch_parents_async (ols_client.py, lines 245 to 299): every URL
of the batch receives an entry, an exception mapping to the empty
list. -/
def batch_fetch_parents_async (inputs : List (String × GatherOutcome)) :
    List (String × List String) :=
  inputs.map fun p =>
    (p.1,
      match p.2 with
      | GatherOutcome.value r => fetch_parent_iris_async r
      | GatherOutcome.exc => [])

/-- Attempts of the retry loop that sleep and leave the loop running
(HTTP 429, any other retried HTTP status, connection error, timeout);
used to state the amended claim C1. -/
def isTransientRetry : SyncResp → Bool
  | SyncResp.rateLimited => true
  | SyncResp.httpOther => true
  | SyncResp.connError => true
  | SyncResp.timeoutError => true
  | _ => false

/-- Amended claim C1 predicate: the three attempts of a URL are all
transient retries and the final one is an HTTP 429, the one shape on
which the sequential fallback stores no entry at all. -/
def omittedBy429 (rs : SyncResp × SyncResp × SyncResp) : Bool :=
  isTransientRetry rs.1 && isTransientRetry rs.2.1
    && decide (rs.2.2 = SyncResp.rateLimited)

/-- The class of response fetch_terms_page (ols_client.py, lines 70 to
123) distinguishes for one attempt: success, HTTP 429, an HTTP 5xx, any
other HTTP error, or a requests exception. -/
inductive PageResp where
  | ok
  | rateLimited
  | serverError
  | clientError
  | netError
deriving DecidableEq, Repr

/-- The retry loop of fetch_terms_page.  The argument f gives the
response of attempt i; the state is the attempt index, the current
retry_delay and the remaining attempts (max_retries = 3).  Returns
whether a page was obtained together with the list of backoff sleeps
performed, each as (attempt index, sleep duration): a 429 sleeps
retry_delay * 2, a 5xx or network error sleeps retry_delay, a client
error returns immediately, and retry_delay doubles after every failed
attempt. -/
def fetchPageLoop (f : Nat → PageResp) : Nat → Nat → Nat → Bool × List (Nat × Nat)
  | _, _, 0 => (false, [])
  | i, d, fuel + 1 =>
    match f i with
    | PageResp.ok => (true, [])
    | PageResp.clientError => (false, [])
    | PageResp.rateLimited =>
      let r := fetchPageLoop f (i + 1) (d * 2) fuel
      (r.1, (i, d * 2) :: r.2)
    | PageResp.serverError =>
      let r := fetchPageLoop f (i + 1) (d * 2) fuel
      (r.1, (i, d) :: r.2)
    | PageResp.netError =>
      let r := fetchPageLoop f (i + 1) (d * 2) fuel
      (r.1, (i, d) :: r.2)

/-- One run of the retry schedule of fetch_terms_page: three attempts,
initial retry_delay = 1. -/
def fetch_terms_page_retries (f : Nat → PageResp) : Bool × List (Nat × Nat) :=
  fetchPageLoop f 0 1 3

/-- Number of failed 5xx or network attempts before attempt i; the
exponential schedule position claim C2 says a 5xx wait follows. -/
def priorNon429Failures (f : Nat → PageResp) (i : Nat) : Nat :=
  (List.range i).countP fun j =>
    decide (f j = PageResp.serverError ∨ f j = PageResp.netError)

/-- Claim C2 as stated: every 429 wait is at least twice the base delay
(the initial retry_delay of 1), and a 429 does not consume the
exponential backoff multiplier used for 5xx, i.e. a 5xx wait equals
2 ^ (number of prior 5xx or network failures), unaffected by prior
429s. -/
def c2Claim : Prop :=
  ∀ (f : Nat → PageResp) (i d : Nat), (i, d) ∈ (fetch_terms_page_retries f).2 →
    (f i = PageResp.rateLimited → 2 * 1 ≤ d)
    ∧ ((f i = PageResp.serverError ∨ f i = PageResp.netError) →
        d = 2 ^ priorNon429Failures f i)

/-- A trace whose first attempt is rate-limited and whose second hits a
server error; the third succeeds. -/
def c2Trace : Nat → PageResp
  | 0 => PageResp.rateLimited
  | 1 => PageResp.serverError
  | _ => PageResp.ok

/-- The mutable columns the term upsert overwrites (postgres_loader.py,
lines 86 to 96): everything of a row except the updated_at
timestamp. -/
structure TermRowData where
  iri : String
  label : String
  description : Option String
  content_hash : Option String
deriving DecidableEq, Repr

/-- One row of the efo_terms table, keyed externally by term_id. -/
structure TermRow where
  fields : TermRowData
  updated_at : Nat
deriving DecidableEq, Repr

/-- The efo_terms table as a map from the unique key term_id to the row
(the schema puts a natural-key uniqueness constraint on term_id, so a
keyed map is the faithful table model and duplicate rows cannot
exist). -/
def TermTable := String → Option TermRow

/-- One INSERT ... ON CONFLICT (term_id) DO UPDATE statement of
bulk_insert_terms: insert the row or overwrite the mutable fields and
bump updated_at to the current timestamp. -/
def upsertTerm (tbl : TermTable) (t : NormTerm) (now : Nat) : TermTable :=
  fun k =>
    if t.term_id = k then some ⟨⟨t.iri, t.label, t.description, t.content_hash⟩, now⟩
    else tbl k

/-- Translation of bulk_insert_terms (postgres_loader.py, lines 54 to
115): executemany runs the upsert once per batch element, in order, and
the batch commits as one transaction. -/
def bulk_insert_terms (tbl : TermTable) (terms_batch : List NormTerm) (now : Nat) : TermTable :=
  terms_batch.foldl (fun acc t => upsertTerm acc t now) tbl

/-- The counts bulk_insert_terms returns: cursor.rowcount after the
executemany (one affected row per statement, insert or update alike) as
inserted, and always 0 as updated, per the source comment that inserts
and updates cannot be distinguished. -/
def bulk_insert_terms_rowcount (terms_batch : List NormTerm) : Nat × Nat :=
  (terms_batch.length, 0)

/-- The last element of the batch carrying the given term_id: the row
value that survives the executemany for that key. -/
def lastWithId : List NormTerm → String → Option NormTerm
  | [], _ => none
  | t :: rest, k =>
    match lastWithId rest k with
    | some u => some u
    | none => if t.term_id = k then some t else none

/-- The parents entry of the _links section of a raw term, in the shapes
extract_parent_iris (ols_client.py, lines 479 to 518) distinguishes:
absent (or falsy), a single link object (missing href modelled as the
empty string), a list of entries (none for a non-dict entry), or a
direct URL string. -/
inductive ParentsLink where
  | absent
  | dict (href : String)
  | many (items : List (Option String))
  | url (s : String)
deriving DecidableEq, Repr

/-- Translation of extract_parent_iris: collect the non-empty hrefs, in
order. -/
def extract_parent_iris : ParentsLink → List String
  | ParentsLink.absent => []
  | ParentsLink.dict href => if href = "" then [] else [href]
  | ParentsLink.many items =>
    items.filterMap fun it =>
      match it with
      | some href => if href = "" then none else some href
      | none => none
  | ParentsLink.url s => if s = "" then [] else [s]

/-- The part of one raw OLS term object the pipeline reads: obo_id, iri
and label (none = key absent or null), the description list, the synonym
list, and the parents entry of _links.  The MeSH cross-reference fields
are independent bookkeeping no claim touches and are not modelled. -/
structure TermJson where
  obo_id : Option String
  iri : Option String
  label : Option String
  description : List String
  synonyms : List String
  links_parents : ParentsLink
deriving DecidableEq, Repr

/-- Translation of extract_term_data (ols_client.py, lines 126 to 141):
missing keys default to the empty string; the description is the first
element of a truthy description list, else none. -/
def extract_term_data (tj : TermJson) : RawTerm :=
  { term_id := tj.obo_id.getD ""
    iri := tj.iri.getD ""
    label := tj.label.getD ""
    description := tj.description.head? }

/-- Translation of extract_synonyms (ols_client.py, lines 144 to 159):
drop falsy entries. -/
def extract_synonyms (tj : TermJson) : List String :=
  tj.synonyms.filter fun s => decide (s ≠ "")

/-- The execution modes of the pipeline. -/
inductive Mode where
  | test
  | full
  | incremental
deriving DecidableEq, Repr

/-- The statistics dict of pipeline.main. -/
structure RunStats where
  terms_fetched : Nat
  terms_inserted : Nat
  terms_updated : Nat
  terms_skipped : Nat
deriving DecidableEq, Repr

/-- The in-memory accumulation state of Phase 1 of pipeline.main
(pipeline.py, lines 117 to 224): counters, the two open batches, the
batches already flushed to the loader, and the iri to parent-URL map
buffered for Phase 1.5. -/
structure Phase1State where
  stats : RunStats
  terms_batch : List NormTerm
  synonyms_batch : List (String × String)
  flushed_terms : List (List NormTerm)
  flushed_synonyms : List (List (String × String))
  parent_urls_map : List (String × String)
deriving DecidableEq, Repr

/-- Python dict assignment d[k] = v on an insertion-ordered association
list: overwrite in place when the key exists, else append. -/
def dictInsert {β : Type} (m : List (String × β)) (k : String) (v : β) : List (String × β) :=
  if m.any fun p => decide (p.1 = k) then
    m.map fun p => if p.1 = k then (k, v) else p
  else m ++ [(k, v)]

/-- The retention decision the Phase 1 loop takes for one fetched term:
none when the record fails normalization, or, in incremental mode, when
the freshly computed content hash (first-pass hash, computed with an
empty parent list) equals the stored hash for its term_id; otherwise the
normalized term with its content hash. -/
def processKept (mode : Mode) (stored_hashes : List (String × String)) (tj : TermJson) :
    Option NormTerm :=
  match normalize_term (extract_term_data tj) with
  | none => none
  | some n0 =>
    let normalized := add_content_hash_to_term n0 (extract_synonyms tj) []
    if mode = Mode.incremental ∧ stored_hashes.lookup normalized.term_id = normalized.content_hash
    then none
    else some normalized

/-- The fetched-counter increment at the top of the Phase 1 loop body
(pipeline.py, line 152). -/
def countFetch (st : Phase1State) : Phase1State :=
  { st with stats := { st.stats with terms_fetched := st.stats.terms_fetched + 1 } }

/-- The skipped-counter increment of the two skip paths of the Phase 1
loop body (pipeline.py, lines 164 and 181). -/
def countSkip (st : Phase1State) : Phase1State :=
  { st with stats := { st.stats with terms_skipped := st.stats.terms_skipped + 1 } }

/-- The buffering and flushing steps the Phase 1 loop performs for one
kept term (pipeline.py, lines 184 to 213): append the term to the open
batch, buffer the first parent URL under the term iri, buffer the
synonyms, and flush either batch once it reaches the size threshold
(bulk_insert_terms returning its row count as inserted and 0 as
updated). -/
def keepSteps (batch_size : Nat) (st : Phase1State) (normalized : NormTerm)
    (synonyms_list parent_urls : List String) : Phase1State :=
  let st := { st with terms_batch := st.terms_batch ++ [normalized] }
  let st :=
    match parent_urls with
    | [] => st
    | u :: _ => { st with parent_urls_map := dictInsert st.parent_urls_map normalized.iri u }
  let st :=
    if synonyms_list ≠ [] then
      { st with
        synonyms_batch := st.synonyms_batch ++ normalize_synonyms normalized.term_id synonyms_list }
    else st
  let st :=
    if batch_size ≤ st.terms_batch.length then
      { st with
        flushed_terms := st.flushed_terms ++ [st.terms_batch]
        stats := { st.stats with
          terms_inserted := st.stats.terms_inserted + (bulk_insert_terms_rowcount st.terms_batch).1
          terms_updated := st.stats.terms_updated + (bulk_insert_terms_rowcount st.terms_batch).2 }
        terms_batch := [] }
    else st
  if batch_size ≤ st.synonyms_batch.length then
    { st with flushed_synonyms := st.flushed_synonyms ++ [st.synonyms_batch], synonyms_batch := [] }
  else st

/-- One iteration of the Phase 1 loop of pipeline.main (pipeline.py,
lines 147 to 213): count the fetch; skip (and count) a record that
fails normalization or, in incremental mode, whose fresh hash equals
the stored one — the retention decision of processKept; keep every
other record through the buffer and flush steps. -/
def process_term (mode : Mode) (batch_size : Nat) (stored_hashes : List (String × String))
    (st : Phase1State) (tj : TermJson) : Phase1State :=
  let st := countFetch st
  match processKept mode stored_hashes tj with
  | none => countSkip st
  | some normalized =>
    keepSteps batch_size st normalized (extract_synonyms tj)
      (extract_parent_iris tj.links_parents)

/-- The Phase 1 state at the start of the run. -/
def phase1Start : Phase1State :=
  { stats := ⟨0, 0, 0, 0⟩
    terms_batch := []
    synonyms_batch := []
    flushed_terms := []
    flushed_synonyms := []
    parent_urls_map := [] }

/-- The trailing flushes after the Phase 1 loop (pipeline.py, lines 215
to 224): push out whatever remains of either batch. -/
def flushRemainder (st : Phase1State) : Phase1State :=
  let st :=
    if st.terms_batch ≠ [] then
      { st with
        flushed_terms := st.flushed_terms ++ [st.terms_batch]
        stats := { st.stats with
          terms_inserted := st.stats.terms_inserted + (bulk_insert_terms_rowcount st.terms_batch).1
          terms_updated := st.stats.terms_updated + (bulk_insert_terms_rowcount st.terms_batch).2 }
        terms_batch := [] }
    else st
  if st.synonyms_batch ≠ [] then
    { st with flushed_synonyms := st.flushed_synonyms ++ [st.synonyms_batch], synonyms_batch := [] }
  else st

/-- Phase 1 of pipeline.main over the fetched term sequence. -/
def run_phase1 (mode : Mode) (batch_size : Nat) (stored_hashes : List (String × String))
    (terms : List TermJson) : Phase1State :=
  flushRemainder (terms.foldl (process_term mode batch_size stored_hashes) phase1Start)

/-- The URL list Phase 1.5 hands to the batch parent fetcher
(pipeline.py, line 236): the values of the buffered iri to parent-URL
map. -/
def phase15_fetch_urls (st : Phase1State) : List String :=
  st.parent_urls_map.map Prod.snd

/-- The counters update_execution_record (postgres_loader.py, lines 310
to 363) writes into the pipeline_executions row. -/
structure ExecutionCounters where
  terms_fetched : Nat
  terms_inserted : Nat
  terms_updated : Nat
  terms_skipped : Nat
deriving DecidableEq, Repr

/-- The stats to ExecutionRecord counter mapping of
update_execution_record. -/
def update_execution_record_counters (stats : RunStats) : ExecutionCounters :=
  ⟨stats.terms_fetched, stats.terms_inserted, stats.terms_updated, stats.terms_skipped⟩

/-- Total rows across the flushed term batches. -/
def totalFlushedRows (st : Phase1State) : Nat :=
  (st.flushed_terms.map List.length).sum

/-- The parsed body of one successful page response: the embedded term
list and the pagination metadata. -/
structure PageJson where
  terms : List TermJson
  totalPages : Nat
  number : Nat
deriving Repr

/-- The outcome of fetch_terms_page for one page: failure (None) or a
parsed body. -/
inductive PageFetch where
  | failed
  | success (page : PageJson)
deriving Repr

/-- The truthy limit test of fetch_all_terms: Python
`if limit and terms_yielded >= limit`. -/
def limitReached (limit : Option Nat) (yielded : Nat) : Bool :=
  match limit with
  | none => false
  | some n => decide (n ≠ 0) && decide (n ≤ yielded)

/-- The inner yield loop of fetch_all_terms over one page: a truthy
limit caps the number of yielded terms, a falsy one (None or 0) yields
the whole page. -/
def takeLimited (limit : Option Nat) (yielded : Nat) (terms : List TermJson) : List TermJson :=
  match limit with
  | some (n + 1) => terms.take (n + 1 - yielded)
  | _ => terms

/-- The pagination loop of fetch_all_terms (ols_client.py, lines 563 to
631) over the successive page responses: stop when the limit is reached,
on a failed page fetch, on an empty term list, or after the page the
metadata marks as last. -/
def fetchAllLoop (limit : Option Nat) : Nat → List PageFetch → List TermJson
  | _, [] => []
  | yielded, pf :: rest =>
    if limitReached limit yielded then []
    else
      match pf with
      | PageFetch.failed => []
      | PageFetch.success page =>
        if page.terms = [] then []
        else
          let yieldedTerms := takeLimited limit yielded page.terms
          if 0 < page.totalPages ∧ page.totalPages - 1 ≤ page.number then yieldedTerms
          else yieldedTerms ++ fetchAllLoop limit (yielded + yieldedTerms.length) rest

/-- Translation of fetch_all_terms: pages in order from page 0; list
exhaustion stands for a failed fetch of the next page. -/
def fetch_all_terms (pages : List PageFetch) (limit : Option Nat) : List TermJson :=
  fetchAllLoop limit 0 pages

/-- The record-limit validation of Config._validate (config.py, lines
74 to 75): RECORD_LIMIT must be non-negative, so 0 is explicitly
permitted. -/
def record_limit_valid (n : Int) : Bool := decide (0 ≤ n)

/-! Order lemmas for the string comparison used by pySorted. -/

theorem lexLe_total : ∀ as bs : List Char, lexLe as bs = true ∨ lexLe bs as = true
  | [], _ => Or.inl rfl
  | _ :: _, [] => Or.inr rfl
  | a :: as, b :: bs => by
    by_cases h : a = b
    · subst h
      simpa [lexLe] using lexLe_total as bs
    · rcases lt_or_gt_of_ne h with hlt | hgt
      · exact Or.inl (by simp [lexLe, h, hlt])
      · exact Or.inr (by simp [lexLe, Ne.symm h, hgt])

theorem lexLe_antisymm : ∀ {as bs : List Char},
    lexLe as bs = true → lexLe bs as = true → as = bs
  | [], [], _, _ => rfl
  | [], _ :: _, _, h2 => by simp [lexLe] at h2
  | _ :: _, [], h1, _ => by simp [lexLe] at h1
  | a :: as, b :: bs, h1, h2 => by
    by_cases h : a = b
    · subst h
      simp only [lexLe, if_pos rfl] at h1 h2
      rw [lexLe_antisymm h1 h2]
    · simp only [lexLe, if_neg h, if_neg (Ne.symm h), decide_eq_true_eq] at h1 h2
      exact (lt_asymm h1 h2).elim

theorem lexLe_trans : ∀ {as bs cs : List Char},
    lexLe as bs = true → lexLe bs cs = true → lexLe as cs = true
  | [], _, _, _, _ => rfl
  | _ :: _, [], _, h1, _ => by simp [lexLe] at h1
  | _ :: _, _ :: _, [], _, h2 => by simp [lexLe] at h2
  | a :: as, b :: bs, c :: cs, h1, h2 => by
    by_cases hab : a = b
    · subst hab
      by_cases hac : a = c
      · subst hac
        simp only [lexLe, if_pos rfl] at h1 h2 ⊢
        exact lexLe_trans h1 h2
      · simp only [lexLe, if_pos rfl] at h1
        simpa [lexLe, hac] using h2
    · by_cases hbc : b = c
      · subst hbc
        simpa [lexLe, hab] using h1
      · simp only [lexLe, if_neg hab, if_neg hbc, decide_eq_true_eq] at h1 h2
        have hac : a < c := lt_trans h1 h2
        simp [lexLe, ne_of_lt hac, hac]

theorem pySorted_perm (l : List String) : (pySorted l).Perm l :=
  List.perm_insertionSort pyStrLe l

theorem pySorted_eq_of_perm {l1 l2 : List String} (h : l1.Perm l2) :
    pySorted l1 = pySorted l2 := by
  haveI : IsTotal String pyStrLe := ⟨fun a b => lexLe_total a.data b.data⟩
  haveI : IsTrans String pyStrLe := ⟨fun _ _ _ h1 h2 => lexLe_trans h1 h2⟩
  haveI : IsAntisymm String pyStrLe := ⟨fun _ _ h1 h2 => String.ext (lexLe_antisymm h1 h2)⟩
  exact List.eq_of_perm_of_sorted
    ((pySorted_perm l1).trans (h.trans (pySorted_perm l2).symm))
    (List.sorted_insertionSort pyStrLe l1)
    (List.sorted_insertionSort pyStrLe l2)

/-- C4: compute_term_hash is deterministic and invariant under
reordering: for every term, permuting the synonym list and the parent
IRI list leaves the hash unchanged. -/
theorem compute_term_hash_perm_invariant (term : NormTerm) {s1 s2 p1 p2 : List String}
    (hs : s1.Perm s2) (hp : p1.Perm p2) :
    compute_term_hash term s1 p1 = compute_term_hash term s2 p2 := by
  unfold compute_term_hash
  rw [pySorted_eq_of_perm hs, pySorted_eq_of_perm hp]

/-- Witness for C4: the hash of the term with synonyms b, a and parents
q, p equals the hash with synonyms a, b and parents p, q. -/
theorem compute_term_hash_perm_invariant_witness :
    (["b", "a"] : List String).Perm ["a", "b"]
    ∧ (["q", "p"] : List String).Perm ["p", "q"]
    ∧ compute_term_hash ⟨"EFO:1", "iri1", "lbl", none, none⟩ ["b", "a"] ["q", "p"]
        = compute_term_hash ⟨"EFO:1", "iri1", "lbl", none, none⟩ ["a", "b"] ["p", "q"] :=
  ⟨List.Perm.swap "a" "b" [], List.Perm.swap "p" "q" [],
    compute_term_hash_perm_invariant _ (List.Perm.swap "a" "b" []) (List.Perm.swap "p" "q" [])⟩

/-! Claim C8: a record limit of 0 means unlimited. -/

theorem limitReached_zero (y : Nat) : limitReached (some 0) y = false := rfl

theorem limitReached_none (y : Nat) : limitReached none y = false := rfl

theorem takeLimited_zero (y : Nat) (ts : List TermJson) : takeLimited (some 0) y ts = ts := rfl

theorem takeLimited_none (y : Nat) (ts : List TermJson) : takeLimited none y ts = ts := rfl

theorem fetchAllLoop_zero_limit : ∀ (ps : List PageFetch) (y1 y2 : Nat),
    fetchAllLoop (some 0) y1 ps = fetchAllLoop none y2 ps
  | [], _, _ => rfl
  | pf :: rest, y1, y2 => by
    simp only [fetchAllLoop]
    rw [limitReached_zero, limitReached_none,
        if_neg Bool.false_ne_true, if_neg Bool.false_ne_true]
    cases pf with
    | failed => rfl
    | success page =>
      simp only [takeLimited_zero, takeLimited_none]
      by_cases hterms : page.terms = []
      · rw [if_pos hterms, if_pos hterms]
      · rw [if_neg hterms, if_neg hterms]
        by_cases hlast : 0 < page.totalPages ∧ page.totalPages - 1 ≤ page.number
        · rw [if_pos hlast, if_pos hlast]
        · rw [if_neg hlast, if_neg hlast,
              fetchAllLoop_zero_limit rest (y1 + page.terms.length) (y2 + page.terms.length)]

/-- C8: fetch_all_terms with a record limit of 0 yields exactly what it
yields with no limit at all (every available term), and the
configuration validation explicitly permits 0 for the record limit. -/
theorem fetch_all_terms_zero_limit_unlimited (pages : List PageFetch) :
    fetch_all_terms pages (some 0) = fetch_all_terms pages none
    ∧ record_limit_valid 0 = true :=
  ⟨fetchAllLoop_zero_limit pages 0 0, rfl⟩

/-! Claim C5: idempotence of the term upsert batch. -/

theorem bulk_insert_terms_lookup :
    ∀ (terms_batch : List NormTerm) (tbl : TermTable) (now : Nat) (k : String),
      bulk_insert_terms tbl terms_batch now k
        = match lastWithId terms_batch k with
          | some u => some ⟨⟨u.iri, u.label, u.description, u.content_hash⟩, now⟩
          | none => tbl k
  | [], _, _, _ => rfl
  | t :: rest, tbl, now, k => by
    have ih := bulk_insert_terms_lookup rest (upsertTerm tbl t now) now k
    simp only [bulk_insert_terms, List.foldl_cons] at ih ⊢
    rw [ih]
    cases h : lastWithId rest k with
    | some u => simp [lastWithId, h]
    | none =>
      simp only [lastWithId, h]
      by_cases htk : t.term_id = k
      · simp [upsertTerm, htk]
      · simp [upsertTerm, htk]

/-- C5: running bulk_insert_terms a second time with the same batch
leaves the table exactly as a single run at the second timestamp would,
and every row agrees with the single-run table on all columns except
the updated_at timestamp; the keyed table model makes duplicate rows
impossible. -/
theorem bulk_insert_terms_idempotent (tbl : TermTable) (terms_batch : List NormTerm)
    (t1 t2 : Nat) :
    bulk_insert_terms (bulk_insert_terms tbl terms_batch t1) terms_batch t2
      = bulk_insert_terms tbl terms_batch t2
    ∧ ∀ k,
      (bulk_insert_terms (bulk_insert_terms tbl terms_batch t1) terms_batch t2 k).map TermRow.fields
        = (bulk_insert_terms tbl terms_batch t1 k).map TermRow.fields := by
  constructor
  · funext k
    cases h : lastWithId terms_batch k with
    | some u => simp [bulk_insert_terms_lookup, h]
    | none => simp [bulk_insert_terms_lookup, h]
  · intro k
    cases h : lastWithId terms_batch k with
    | some u => simp [bulk_insert_terms_lookup, h]
    | none => simp [bulk_insert_terms_lookup, h]

/-! Claim C1: completeness of the batch parent resolvers. -/

theorem syncRetryLoop_three_isSome (a b c : SyncResp) :
    (syncRetryLoop [a, b, c]).isSome = !omittedBy429 (a, b, c) := by
  cases a <;> cases b <;> cases c <;>
    simp [syncRetryLoop, omittedBy429, isTransientRetry]

/-- C1 counterexample: a URL whose three sequential-fallback attempts
are all rate-limited (HTTP 429) is silently omitted from the returned
mapping, contradicting the claim that every input URL receives an
entry. -/
theorem batch_fetch_parents_sync_omission_counterexample :
    "u" ∈ ([("u", (SyncResp.rateLimited, SyncResp.rateLimited, SyncResp.rateLimited))].map
      Prod.fst)
    ∧ (batch_fetch_parents_sync
        [("u", (SyncResp.rateLimited, SyncResp.rateLimited, SyncResp.rateLimited))]).lookup "u"
      = none := by
  constructor
  · simp
  · rfl

theorem batch_fetch_parents_sync_keys :
    ∀ syncInputs : List (String × (SyncResp × SyncResp × SyncResp)),
      (batch_fetch_parents_sync syncInputs).map Prod.fst
        = (syncInputs.filter fun p => !omittedBy429 p.2).map Prod.fst
  | [] => rfl
  | ⟨u, a, b, c⟩ :: rest => by
    have ih := batch_fetch_parents_sync_keys rest
    have hsome := syncRetryLoop_three_isSome a b c
    simp only [batch_fetch_parents_sync, List.filterMap_cons, List.filter_cons] at ih ⊢
    cases h : syncRetryLoop [a, b, c] with
    | some iris =>
      rw [h] at hsome
      simp only [Option.isSome_some] at hsome
      simp [hsome.symm, ih]
    | none =>
      rw [h] at hsome
      simp only [Option.isSome_none] at hsome
      have : omittedBy429 (a, b, c) = true := by
        cases hom : omittedBy429 (a, b, c)
        · rw [hom] at hsome; simp at hsome
        · rfl
      simp [this, ih]

/-- C1 (amended): for every list of distinct URLs, the concurrent path
returns a mapping with an entry for every input URL (failures mapping to
the empty list); the sequential fallback returns an entry for exactly
those URLs whose three attempts are not all transient retries ending in
a rate-limited (429) final attempt — a URL whose retries are exhausted
by a 429 on the last attempt is omitted from the mapping, every other
failure being represented as an empty list. -/
theorem batch_fetch_parents_complete_amended
    (asyncInputs : List (String × GatherOutcome))
    (syncInputs : List (String × (SyncResp × SyncResp × SyncResp)))
    (hasync : (asyncInputs.map Prod.fst).Nodup)
    (hsync : (syncInputs.map Prod.fst).Nodup) :
    (batch_fetch_parents_async asyncInputs).map Prod.fst = asyncInputs.map Prod.fst
    ∧ (batch_fetch_parents_sync syncInputs).map Prod.fst
        = (syncInputs.filter fun p => !omittedBy429 p.2).map Prod.fst := by
  refine ⟨?_, batch_fetch_parents_sync_keys syncInputs⟩
  simp [batch_fetch_parents_async]

/-- Witness for the amended C1 at concrete inputs: one async URL whose
task raised, one sync URL whose first attempt succeeds. -/
theorem batch_fetch_parents_complete_amended_witness :
    (([("a", GatherOutcome.exc)].map Prod.fst).Nodup)
    ∧ (([("u", (SyncResp.ok [], SyncResp.ok [], SyncResp.ok []))].map Prod.fst).Nodup)
    ∧ ((batch_fetch_parents_async [("a", GatherOutcome.exc)]).map Prod.fst
        = [("a", GatherOutcome.exc)].map Prod.fst
      ∧ (batch_fetch_parents_sync [("u", (SyncResp.ok [], SyncResp.ok [], SyncResp.ok []))]).map
          Prod.fst
        = ([("u", (SyncResp.ok [], SyncResp.ok [], SyncResp.ok []))].filter
            fun p => !omittedBy429 p.2).map Prod.fst) :=
  ⟨by simp, by simp,
    batch_fetch_parents_complete_amended [("a", GatherOutcome.exc)]
      [("u", (SyncResp.ok [], SyncResp.ok [], SyncResp.ok []))] (by simp) (by simp)⟩

/-! Claim C2: the 429 wait and the shared backoff multiplier. -/

theorem fetchPageLoop_sleep_schedule :
    ∀ (fuel : Nat) (f : Nat → PageResp) (i0 d0 i d : Nat),
      (i, d) ∈ (fetchPageLoop f i0 d0 fuel).2 →
      i0 ≤ i ∧ d = (if f i = PageResp.rateLimited then 2 * (d0 * 2 ^ (i - i0))
                    else d0 * 2 ^ (i - i0))
  | 0, f, i0, d0, i, d => by
    intro h
    simp [fetchPageLoop] at h
  | fuel + 1, f, i0, d0, i, d => by
    intro h
    simp only [fetchPageLoop] at h
    cases hf : f i0 with
    | ok => rw [hf] at h; simp at h
    | clientError => rw [hf] at h; simp at h
    | rateLimited =>
      rw [hf] at h
      simp only [List.mem_cons] at h
      rcases h with heq | hmem
      · have hi : i = i0 := congrArg Prod.fst heq
        have hd : d = d0 * 2 := congrArg Prod.snd heq
        subst hi
        rw [hf]
        simp [hd, Nat.mul_comm]
      · obtain ⟨hle, hval⟩ := fetchPageLoop_sleep_schedule fuel f (i0 + 1) (d0 * 2) i d hmem
        refine ⟨le_trans (Nat.le_succ i0) hle, ?_⟩
        have hk : i - i0 = (i - (i0 + 1)) + 1 := by omega
        rw [hval, hk, pow_succ]
        split <;> ring
    | serverError =>
      rw [hf] at h
      simp only [List.mem_cons] at h
      rcases h with heq | hmem
      · have hi : i = i0 := congrArg Prod.fst heq
        have hd : d = d0 := congrArg Prod.snd heq
        subst hi
        rw [hf]
        simp [hd]
      · obtain ⟨hle, hval⟩ := fetchPageLoop_sleep_schedule fuel f (i0 + 1) (d0 * 2) i d hmem
        refine ⟨le_trans (Nat.le_succ i0) hle, ?_⟩
        have hk : i - i0 = (i - (i0 + 1)) + 1 := by omega
        rw [hval, hk, pow_succ]
        split <;> ring
    | netError =>
      rw [hf] at h
      simp only [List.mem_cons] at h
      rcases h with heq | hmem
      · have hi : i = i0 := congrArg Prod.fst heq
        have hd : d = d0 := congrArg Prod.snd heq
        subst hi
        rw [hf]
        simp [hd]
      · obtain ⟨hle, hval⟩ := fetchPageLoop_sleep_schedule fuel f (i0 + 1) (d0 * 2) i d hmem
        refine ⟨le_trans (Nat.le_succ i0) hle, ?_⟩
        have hk : i - i0 = (i - (i0 + 1)) + 1 := by omega
        rw [hval, hk, pow_succ]
        split <;> ring

/-- C2 counterexample: on the trace 429 then 5xx then success, the 5xx
attempt waits 2 time-units, not the 2 ^ 0 = 1 the claim predicts for a
5xx preceded by no 5xx or network failure: the 429 advanced the shared
backoff multiplier. -/
theorem fetch_terms_page_backoff_counterexample : ¬ c2Claim := by
  intro h
  have h2 := (h c2Trace 1 2 (by decide)).2 (Or.inl rfl)
  simp [priorNon429Failures, c2Trace, List.range_succ] at h2

/-- C2 (amended): a 429 does wait at least twice the base delay (its
sleep at attempt i is 2 ^ (i + 1)), but the exponential backoff
multiplier is shared with the 5xx path rather than separate from it:
retry_delay doubles after every failed attempt, 429 included, so a 5xx
or network-error sleep at attempt i is 2 ^ i regardless of which
retryable failures preceded it. -/
theorem fetch_terms_page_backoff_amended (f : Nat → PageResp) (i d : Nat)
    (hmem : (i, d) ∈ (fetch_terms_page_retries f).2) :
    (f i = PageResp.rateLimited → d = 2 ^ (i + 1) ∧ 2 * 1 ≤ d)
    ∧ ((f i = PageResp.serverError ∨ f i = PageResp.netError) → d = 2 ^ i) := by
  obtain ⟨-, hval⟩ := fetchPageLoop_sleep_schedule 3 f 0 1 i d hmem
  constructor
  · intro hrl
    rw [if_pos hrl, Nat.sub_zero, one_mul] at hval
    constructor
    · rw [hval, pow_succ, Nat.mul_comm]
    · have h1 : 1 ≤ 2 ^ i := Nat.one_le_two_pow
      omega
  · intro h5
    have hne : ¬ f i = PageResp.rateLimited := by
      rcases h5 with h5 | h5 <;> simp [h5]
    rw [if_neg hne, Nat.sub_zero, one_mul] at hval
    exact hval

/-- Witness for the amended C2: the 429 sleep of attempt 0 on the
counterexample trace. -/
theorem fetch_terms_page_backoff_amended_witness :
    (0, 2) ∈ (fetch_terms_page_retries c2Trace).2
    ∧ ((c2Trace 0 = PageResp.rateLimited → 2 = 2 ^ (0 + 1) ∧ 2 * 1 ≤ 2)
      ∧ ((c2Trace 0 = PageResp.serverError ∨ c2Trace 0 = PageResp.netError) → 2 = 2 ^ 0)) :=
  ⟨by decide, fetch_terms_page_backoff_amended c2Trace 0 2 (by decide)⟩

/-! Claim C7: the normalize_term contract. -/

/-- C7 counterexample: a record whose description is the present but
empty string passes validation with the description kept as the empty
string instead of being collapsed to absent as the claim requires. -/
theorem normalize_term_empty_description_counterexample :
    normalize_term ⟨"id", "iri", "lbl", some ""⟩ = some ⟨"id", "iri", "lbl", some "", none⟩
    ∧ pyStrip "" = ""
    ∧ (some "" : Option String) ≠ none := by
  refine ⟨by decide, rfl, by simp⟩

/-- C7 (amended): normalize_term returns Invalid (none, never an
exception) exactly when term_id, iri or label is empty after trimming;
on success it returns the three fields trimmed, and the description
trimmed and collapsed to absent when a non-empty description trims to
nothing, while a present-but-empty description is passed through
unchanged rather than collapsed to absent. -/
theorem normalize_term_matches_spec (t : RawTerm) :
    normalize_term t = normalize_term_spec t := by
  unfold normalize_term normalize_term_spec
  by_cases h : pyStrip t.term_id = "" ∨ pyStrip t.iri = "" ∨ pyStrip t.label = ""
  · rw [if_pos h, if_pos h]
  · rw [if_neg h, if_neg h]
    cases hd : t.description with
    | none => rfl
    | some d =>
      by_cases hde : d = ""
      · simp [spec_description_norm, hde]
      · simp [spec_description_norm, hde]

/-! Claim C3: hash sensitivity.  All statements are about the SHA-256
preimage compute_term_hash builds: equal preimages give equal digests,
so an equality here refutes distinctness of the real hashes, and a
distinctness here is distinctness of the digests up to SHA-256
collisions. -/

theorem empty_string_data : ("" : String).data = [] := rfl

theorem pipe_data : ("|" : String).data = ['|'] := rfl

theorem comma_string_data : ("," : String).data = [','] := rfl

theorem joinComma_nil : joinComma [] = "" := rfl

theorem joinComma_singleton (s : String) : joinComma [s] = s := rfl

theorem joinComma_cons_cons (s r : String) (rs : List String) :
    joinComma (s :: r :: rs) = s ++ "," ++ joinComma (r :: rs) := rfl

theorem joinComma_data_cons (s r : String) (rs : List String) :
    (joinComma (s :: r :: rs)).data = s.data ++ ',' :: (joinComma (r :: rs)).data := by
  rw [joinComma_cons_cons]
  simp [comma_string_data]

/-- Splitting at the first comma: two comma-free prefixes followed by a
comma determine each other. -/
theorem commaFree_split {x : List Char} : ∀ {y t1 t2 : List Char}, ',' ∉ x → ',' ∉ y →
    x ++ ',' :: t1 = y ++ ',' :: t2 → x = y ∧ t1 = t2 := by
  induction x with
  | nil =>
    intro y t1 t2 _ hy h
    cases y with
    | nil => exact ⟨rfl, by simpa using h⟩
    | cons b ys =>
      simp only [List.nil_append, List.cons_append, List.cons.injEq] at h
      exact absurd (by rw [h.1]; exact List.mem_cons_self b ys) hy
  | cons a xs ih =>
    intro y t1 t2 hx hy h
    cases y with
    | nil =>
      simp only [List.cons_append, List.nil_append, List.cons.injEq] at h
      exact absurd (by rw [← h.1]; exact List.mem_cons_self a xs) hx
    | cons b ys =>
      simp only [List.cons_append, List.cons.injEq] at h
      obtain ⟨hab, hrest⟩ := h
      have hx2 : ',' ∉ xs := fun hm => hx (List.mem_cons_of_mem a hm)
      have hy2 : ',' ∉ ys := fun hm => hy (List.mem_cons_of_mem b hm)
      obtain ⟨h1, h2⟩ := ih hx2 hy2 hrest
      exact ⟨by rw [hab, h1], h2⟩

/-- joinComma is injective on lists of non-empty comma-free strings. -/
theorem joinComma_inj : ∀ {l1 l2 : List String},
    (∀ x ∈ l1, x ≠ "" ∧ ',' ∉ x.data) →
    (∀ x ∈ l2, x ≠ "" ∧ ',' ∉ x.data) →
    joinComma l1 = joinComma l2 → l1 = l2
  | [], [], _, _, _ => rfl
  | [], [y], _, h2, h => absurd h.symm (h2 y (List.mem_singleton_self y)).1
  | [], y :: r :: rs, _, _, h => by
    have hd := congrArg String.data h
    rw [joinComma_nil, joinComma_data_cons, empty_string_data] at hd
    simp at hd
  | [x], [], h1, _, h => absurd h (h1 x (List.mem_singleton_self x)).1
  | x :: r :: rs, [], _, _, h => by
    have hd := congrArg String.data h
    rw [joinComma_nil, joinComma_data_cons, empty_string_data] at hd
    simp at hd
  | [x], [y], _, _, h => by
    have hxy : x = y := h
    rw [hxy]
  | [x], y :: r :: rs, h1, _, h => by
    rw [joinComma_singleton] at h
    have hd := congrArg String.data h
    rw [joinComma_data_cons] at hd
    have hmem : ',' ∈ x.data := by rw [hd]; simp
    exact absurd hmem (h1 x (List.mem_singleton_self x)).2
  | x :: r :: rs, [y], _, h2, h => by
    rw [joinComma_singleton] at h
    have hd := congrArg String.data h
    rw [joinComma_data_cons] at hd
    have hmem : ',' ∈ y.data := by rw [← hd]; simp
    exact absurd hmem (h2 y (List.mem_singleton_self y)).2
  | x :: r :: rs, y :: r2 :: rs2, h1, h2, h => by
    have hd := congrArg String.data h
    rw [joinComma_data_cons, joinComma_data_cons] at hd
    obtain ⟨hxy, htail⟩ :=
      commaFree_split (h1 x (List.mem_cons_self x _)).2 (h2 y (List.mem_cons_self y _)).2 hd
    have hx : x = y := String.ext hxy
    have ht : joinComma (r :: rs) = joinComma (r2 :: rs2) := String.ext htail
    have hrec := joinComma_inj (fun z hz => h1 z (List.mem_cons_of_mem x hz))
      (fun z hz => h2 z (List.mem_cons_of_mem y hz)) ht
    rw [hx, hrec]

/-- Equal sorted comma-joins of non-empty comma-free string lists force
equal element sets. -/
theorem joinComma_pySorted_toFinset {s1 s2 : List String}
    (h1 : ∀ x ∈ s1, x ≠ "" ∧ ',' ∉ x.data) (h2 : ∀ x ∈ s2, x ≠ "" ∧ ',' ∉ x.data)
    (h : joinComma (pySorted s1) = joinComma (pySorted s2)) :
    s1.toFinset = s2.toFinset := by
  have h1s : ∀ x ∈ pySorted s1, x ≠ "" ∧ ',' ∉ x.data :=
    fun x hx => h1 x ((pySorted_perm s1).subset hx)
  have h2s : ∀ x ∈ pySorted s2, x ≠ "" ∧ ',' ∉ x.data :=
    fun x hx => h2 x ((pySorted_perm s2).subset hx)
  have hs := joinComma_inj h1s h2s h
  have hperm : s1.Perm s2 := by
    have hp := (pySorted_perm s1).symm
    rw [hs] at hp
    exact hp.trans (pySorted_perm s2)
  exact List.toFinset_eq_of_perm s1 s2 hperm

/-- The character-list layout of the hash preimage. -/
theorem content_data (t : NormTerm) (s p : List String) :
    (compute_term_hash t s p).data
      = t.label.data ++ '|' :: ((t.description.getD "").data
        ++ '|' :: ((joinComma (pySorted s)).data ++ '|' :: (joinComma (pySorted p)).data)) := by
  simp [compute_term_hash, pipe_data, List.append_assoc]

theorem content_split_eq {t1 t2 : NormTerm} {s1 s2 p1 p2 : List String}
    (hl : t1.label = t2.label)
    (h : compute_term_hash t1 s1 p1 = compute_term_hash t2 s2 p2) :
    (t1.description.getD "").data
        ++ '|' :: ((joinComma (pySorted s1)).data ++ '|' :: (joinComma (pySorted p1)).data)
      = (t2.description.getD "").data
        ++ '|' :: ((joinComma (pySorted s2)).data ++ '|' :: (joinComma (pySorted p2)).data) := by
  have hd := congrArg String.data h
  rw [content_data, content_data, hl] at hd
  have h2 := List.append_cancel_left hd
  simpa using h2

/-- C3 counterexample: with synonyms a,b listed either as the two
strings a and b or as the single string a comma b, the synonym sets
differ but the hash preimages (hence the SHA-256 hashes) coincide; and
an absent description and a present empty description also produce the
same hash, though the description changed. -/
theorem compute_term_hash_sensitivity_counterexample :
    compute_term_hash ⟨"EFO:1", "iri1", "lbl", none, none⟩ ["a,b"] []
      = compute_term_hash ⟨"EFO:1", "iri1", "lbl", none, none⟩ ["a", "b"] []
    ∧ (["a,b"] : List String).toFinset ≠ (["a", "b"] : List String).toFinset
    ∧ compute_term_hash ⟨"EFO:1", "iri1", "lbl", none, none⟩ [] []
      = compute_term_hash ⟨"EFO:1", "iri1", "lbl", some "", none⟩ [] [] := by
  refine ⟨by decide, by decide, by decide⟩

/-- C3 (amended): changing the description string actually fed into the
preimage (the description after the Python falsy-to-empty coercion)
changes the hash preimage; and synonym or parent lists denoting
different sets give different preimages provided every synonym and
parent string is non-empty and comma-free — without that proviso
different sets can collide, as the counterexample shows. -/
theorem compute_term_hash_sensitivity :
    (∀ (t : NormTerm) (d1 d2 : Option String) (s p : List String),
      d1.getD "" ≠ d2.getD "" →
      compute_term_hash { t with description := d1 } s p
        ≠ compute_term_hash { t with description := d2 } s p)
    ∧ (∀ (t : NormTerm) (s1 s2 p : List String),
      (∀ x ∈ s1, x ≠ "" ∧ ',' ∉ x.data) → (∀ x ∈ s2, x ≠ "" ∧ ',' ∉ x.data) →
      s1.toFinset ≠ s2.toFinset →
      compute_term_hash t s1 p ≠ compute_term_hash t s2 p)
    ∧ (∀ (t : NormTerm) (s p1 p2 : List String),
      (∀ x ∈ p1, x ≠ "" ∧ ',' ∉ x.data) → (∀ x ∈ p2, x ≠ "" ∧ ',' ∉ x.data) →
      p1.toFinset ≠ p2.toFinset →
      compute_term_hash t s p1 ≠ compute_term_hash t s p2) := by
  refine ⟨?_, ?_, ?_⟩
  · intro t d1 d2 s p hne h
    apply hne
    have hsplit := @content_split_eq { t with description := d1 }
      { t with description := d2 } s s p p rfl h
    have hdata := List.append_cancel_right hsplit
    exact String.ext hdata
  · intro t s1 s2 p h1 h2 hne h
    apply hne
    have hsplit := @content_split_eq t t s1 s2 p p rfl h
    have h3 := List.append_cancel_left hsplit
    simp only [List.cons.injEq, true_and] at h3
    have h4 := List.append_cancel_right h3
    exact joinComma_pySorted_toFinset h1 h2 (String.ext h4)
  · intro t s p1 p2 h1 h2 hne h
    apply hne
    have hsplit := @content_split_eq t t s s p1 p2 rfl h
    have h3 := List.append_cancel_left hsplit
    simp only [List.cons.injEq, true_and] at h3
    have h4 := List.append_cancel_left h3
    simp only [List.cons.injEq, true_and] at h4
    exact joinComma_pySorted_toFinset h1 h2 (String.ext h4)

/-- Witness for the amended C3 at concrete inputs. -/
theorem compute_term_hash_sensitivity_witness :
    ((some "x" : Option String).getD "" ≠ (none : Option String).getD "")
    ∧ (∀ x ∈ (["a"] : List String), x ≠ "" ∧ ',' ∉ x.data)
    ∧ (∀ x ∈ (["b"] : List String), x ≠ "" ∧ ',' ∉ x.data)
    ∧ (["a"] : List String).toFinset ≠ (["b"] : List String).toFinset
    ∧ compute_term_hash ⟨"EFO:1", "i", "l", some "x", none⟩ [] []
        ≠ compute_term_hash ⟨"EFO:1", "i", "l", none, none⟩ [] []
    ∧ compute_term_hash ⟨"EFO:1", "i", "l", none, none⟩ ["a"] []
        ≠ compute_term_hash ⟨"EFO:1", "i", "l", none, none⟩ ["b"] []
    ∧ compute_term_hash ⟨"EFO:1", "i", "l", none, none⟩ [] ["a"]
        ≠ compute_term_hash ⟨"EFO:1", "i", "l", none, none⟩ [] ["b"] :=
  ⟨by decide, by decide, by decide, by decide,
    compute_term_hash_sensitivity.1 ⟨"EFO:1", "i", "l", none, none⟩ (some "x") none [] []
      (by decide),
    compute_term_hash_sensitivity.2.1 ⟨"EFO:1", "i", "l", none, none⟩ ["a"] ["b"] []
      (by decide) (by decide) (by decide),
    compute_term_hash_sensitivity.2.2 ⟨"EFO:1", "i", "l", none, none⟩ [] ["a"] ["b"]
      (by decide) (by decide) (by decide)⟩

/-! Claims C6, C9 and C10: behaviour of the Phase 1 loop.  The step
lemmas record the effect of one iteration; the fold lemmas extend them
over the fetched sequence. -/

theorem dictInsert_values {β : Type} (m : List (String × β)) (k : String) (v : β) :
    ∀ w ∈ (dictInsert m k v).map Prod.snd, w ∈ m.map Prod.snd ∨ w = v := by
  intro w hw
  unfold dictInsert at hw
  split at hw
  · simp only [List.mem_map] at hw
    obtain ⟨p, hp, hpe⟩ := hw
    obtain ⟨q, hq, hqe⟩ := hp
    by_cases hqk : q.1 = k
    · right
      rw [← hpe, ← hqe, if_pos hqk]
    · left
      rw [← hpe, ← hqe, if_neg hqk]
      exact List.mem_map_of_mem Prod.snd hq
  · simp only [List.map_append, List.mem_append] at hw
    rcases hw with h | h
    · exact Or.inl h
    · right
      simpa using h

theorem mem_dictInsert_head {m : List (String × String)} {k u v : String} {rest : List String}
    (hv : v ∈ (dictInsert m k u).map Prod.snd) :
    v ∈ m.map Prod.snd ∨ (u :: rest).head? = some v := by
  rcases dictInsert_values m k u v hv with h | h
  · exact Or.inl h
  · subst h
    exact Or.inr rfl

theorem keepSteps_fetched (bs : Nat) (st : Phase1State) (n : NormTerm)
    (syn purls : List String) :
    (keepSteps bs st n syn purls).stats.terms_fetched = st.stats.terms_fetched := by
  simp only [keepSteps]
  repeat' split
  all_goals rfl

theorem keepSteps_skipped (bs : Nat) (st : Phase1State) (n : NormTerm)
    (syn purls : List String) :
    (keepSteps bs st n syn purls).stats.terms_skipped = st.stats.terms_skipped := by
  simp only [keepSteps]
  repeat' split
  all_goals rfl

theorem keepSteps_updated (bs : Nat) (st : Phase1State) (n : NormTerm)
    (syn purls : List String) :
    (keepSteps bs st n syn purls).stats.terms_updated = st.stats.terms_updated := by
  simp only [keepSteps]
  repeat' split
  all_goals rfl

theorem keepSteps_kept (bs : Nat) (st : Phase1State) (n : NormTerm)
    (syn purls : List String) :
    (keepSteps bs st n syn purls).flushed_terms.flatten
        ++ (keepSteps bs st n syn purls).terms_batch
      = st.flushed_terms.flatten ++ st.terms_batch ++ [n] := by
  simp only [keepSteps]
  repeat' split
  all_goals simp

theorem keepSteps_inserted (bs : Nat) (st : Phase1State) (n : NormTerm)
    (syn purls : List String) :
    (keepSteps bs st n syn purls).stats.terms_inserted
        + (st.flushed_terms.map List.length).sum
      = st.stats.terms_inserted
        + ((keepSteps bs st n syn purls).flushed_terms.map List.length).sum := by
  simp only [keepSteps, bulk_insert_terms_rowcount]
  repeat' split
  all_goals simp
  all_goals omega

theorem keepSteps_parent_urls (bs : Nat) (st : Phase1State) (n : NormTerm)
    (syn purls : List String) :
    ∀ v ∈ (keepSteps bs st n syn purls).parent_urls_map.map Prod.snd,
      v ∈ st.parent_urls_map.map Prod.snd ∨ purls.head? = some v := by
  simp only [keepSteps]
  cases purls with
  | nil =>
    dsimp only
    repeat' split
    all_goals (intro v hv; exact Or.inl hv)
  | cons u rest =>
    dsimp only
    repeat' split
    all_goals (intro v hv; dsimp only at hv; exact mem_dictInsert_head hv)

theorem process_term_fetched (mode : Mode) (bs : Nat) (stored : List (String × String))
    (st : Phase1State) (tj : TermJson) :
    (process_term mode bs stored st tj).stats.terms_fetched = st.stats.terms_fetched + 1 := by
  simp only [process_term]
  cases h : processKept mode stored tj with
  | none => rfl
  | some n => rw [keepSteps_fetched]; rfl

theorem process_term_updated (mode : Mode) (bs : Nat) (stored : List (String × String))
    (st : Phase1State) (tj : TermJson) :
    (process_term mode bs stored st tj).stats.terms_updated = st.stats.terms_updated := by
  simp only [process_term]
  cases h : processKept mode stored tj with
  | none => rfl
  | some n => rw [keepSteps_updated]; rfl

theorem process_term_skipped (mode : Mode) (bs : Nat) (stored : List (String × String))
    (st : Phase1State) (tj : TermJson) :
    (process_term mode bs stored st tj).stats.terms_skipped
      = st.stats.terms_skipped + (if (processKept mode stored tj).isSome then 0 else 1) := by
  simp only [process_term]
  cases h : processKept mode stored tj with
  | none => simp [countSkip, countFetch]
  | some n =>
    rw [keepSteps_skipped]
    simp [countFetch]

theorem process_term_kept_terms (mode : Mode) (bs : Nat) (stored : List (String × String))
    (st : Phase1State) (tj : TermJson) :
    (process_term mode bs stored st tj).flushed_terms.flatten
        ++ (process_term mode bs stored st tj).terms_batch
      = st.flushed_terms.flatten ++ st.terms_batch
        ++ (processKept mode stored tj).toList := by
  simp only [process_term]
  cases h : processKept mode stored tj with
  | none => simp [countSkip, countFetch]
  | some n =>
    rw [keepSteps_kept bs (countFetch st) n _ _]
    simp [countFetch]

theorem process_term_inserted (mode : Mode) (bs : Nat) (stored : List (String × String))
    (st : Phase1State) (tj : TermJson) :
    (process_term mode bs stored st tj).stats.terms_inserted
        + (st.flushed_terms.map List.length).sum
      = st.stats.terms_inserted
        + ((process_term mode bs stored st tj).flushed_terms.map List.length).sum := by
  simp only [process_term]
  cases h : processKept mode stored tj with
  | none => rfl
  | some n => exact keepSteps_inserted bs (countFetch st) n _ _

theorem process_term_parent_urls (mode : Mode) (bs : Nat) (stored : List (String × String))
    (st : Phase1State) (tj : TermJson) :
    ∀ v ∈ (process_term mode bs stored st tj).parent_urls_map.map Prod.snd,
      v ∈ st.parent_urls_map.map Prod.snd
        ∨ (extract_parent_iris tj.links_parents).head? = some v := by
  simp only [process_term]
  cases h : processKept mode stored tj with
  | none => exact fun v hv => Or.inl hv
  | some n => exact keepSteps_parent_urls bs (countFetch st) n _ _

theorem foldl_process_fetched (mode : Mode) (bs : Nat) (stored : List (String × String)) :
    ∀ (terms : List TermJson) (st : Phase1State),
      (terms.foldl (process_term mode bs stored) st).stats.terms_fetched
        = st.stats.terms_fetched + terms.length
  | [], st => by simp
  | tj :: rest, st => by
    simp only [List.foldl_cons, List.length_cons]
    rw [foldl_process_fetched mode bs stored rest _, process_term_fetched]
    omega

theorem foldl_process_updated (mode : Mode) (bs : Nat) (stored : List (String × String)) :
    ∀ (terms : List TermJson) (st : Phase1State),
      (terms.foldl (process_term mode bs stored) st).stats.terms_updated
        = st.stats.terms_updated
  | [], _ => rfl
  | tj :: rest, st => by
    simp only [List.foldl_cons]
    rw [foldl_process_updated mode bs stored rest _, process_term_updated]

theorem foldl_process_skipped (mode : Mode) (bs : Nat) (stored : List (String × String)) :
    ∀ (terms : List TermJson) (st : Phase1State),
      (terms.foldl (process_term mode bs stored) st).stats.terms_skipped
        = st.stats.terms_skipped
          + terms.countP fun tj => !(processKept mode stored tj).isSome
  | [], st => by simp
  | tj :: rest, st => by
    simp only [List.foldl_cons, List.countP_cons]
    rw [foldl_process_skipped mode bs stored rest _, process_term_skipped]
    cases h : (processKept mode stored tj).isSome <;> simp [h] <;> omega

theorem foldl_process_kept (mode : Mode) (bs : Nat) (stored : List (String × String)) :
    ∀ (terms : List TermJson) (st : Phase1State),
      (terms.foldl (process_term mode bs stored) st).flushed_terms.flatten
          ++ (terms.foldl (process_term mode bs stored) st).terms_batch
        = st.flushed_terms.flatten ++ st.terms_batch
          ++ terms.filterMap (processKept mode stored)
  | [], st => by simp
  | tj :: rest, st => by
    simp only [List.foldl_cons, List.filterMap_cons]
    rw [foldl_process_kept mode bs stored rest _, process_term_kept_terms]
    cases h : processKept mode stored tj <;> simp [h]

theorem foldl_process_inserted (mode : Mode) (bs : Nat) (stored : List (String × String)) :
    ∀ (terms : List TermJson) (st : Phase1State),
      (terms.foldl (process_term mode bs stored) st).stats.terms_inserted
          + (st.flushed_terms.map List.length).sum
        = st.stats.terms_inserted
          + (((terms.foldl (process_term mode bs stored) st).flushed_terms.map
              List.length).sum)
  | [], st => by simp
  | tj :: rest, st => by
    simp only [List.foldl_cons]
    have h1 := foldl_process_inserted mode bs stored rest (process_term mode bs stored st tj)
    have h2 := process_term_inserted mode bs stored st tj
    omega

theorem foldl_process_parent_urls (mode : Mode) (bs : Nat) (stored : List (String × String)) :
    ∀ (terms : List TermJson) (st : Phase1State),
      ∀ v ∈ (terms.foldl (process_term mode bs stored) st).parent_urls_map.map Prod.snd,
        v ∈ st.parent_urls_map.map Prod.snd
          ∨ v ∈ terms.filterMap fun tj => (extract_parent_iris tj.links_parents).head?
  | [], st => by intro v hv; exact Or.inl hv
  | tj :: rest, st => by
    intro v hv
    simp only [List.foldl_cons] at hv
    rcases foldl_process_parent_urls mode bs stored rest _ v hv with h | h
    · rcases process_term_parent_urls mode bs stored st tj v h with h2 | h2
      · exact Or.inl h2
      · right
        exact List.mem_filterMap.mpr ⟨tj, List.mem_cons_self tj rest, h2⟩
    · right
      rw [List.mem_filterMap] at h
      obtain ⟨a, ha, hae⟩ := h
      exact List.mem_filterMap.mpr ⟨a, List.mem_cons_of_mem tj ha, hae⟩

theorem flushRemainder_flatten (st : Phase1State) :
    (flushRemainder st).flushed_terms.flatten = st.flushed_terms.flatten ++ st.terms_batch := by
  simp only [flushRemainder]
  by_cases ht : st.terms_batch ≠ []
  · rw [if_pos ht]
    split <;> simp
  · rw [if_neg ht]
    push_neg at ht
    split <;> simp [ht]

theorem flushRemainder_stats (st : Phase1State) :
    (flushRemainder st).stats.terms_fetched = st.stats.terms_fetched
    ∧ (flushRemainder st).stats.terms_skipped = st.stats.terms_skipped
    ∧ (flushRemainder st).stats.terms_updated = st.stats.terms_updated
    ∧ (flushRemainder st).stats.terms_inserted + (st.flushed_terms.map List.length).sum
        = st.stats.terms_inserted + ((flushRemainder st).flushed_terms.map List.length).sum := by
  simp only [flushRemainder, bulk_insert_terms_rowcount]
  by_cases ht : st.terms_batch ≠ []
  · rw [if_pos ht]
    split <;>
      refine ⟨rfl, rfl, rfl, ?_⟩ <;>
        (simp; omega)
  · rw [if_neg ht]
    split <;> exact ⟨rfl, rfl, rfl, rfl⟩

theorem flushRemainder_parent_urls (st : Phase1State) :
    (flushRemainder st).parent_urls_map = st.parent_urls_map := by
  simp only [flushRemainder]
  by_cases ht : st.terms_batch ≠ []
  · rw [if_pos ht]
    split <;> rfl
  · rw [if_neg ht]
    split <;> rfl

/-- C6: in incremental mode the flushed term batches contain exactly the
fetched terms that normalize successfully and whose freshly computed
content hash differs from the stored hash for their term_id (a missing
stored hash counts as different), in order; every other fetched term is
counted as skipped, and every fetched term is counted as fetched. -/
theorem incremental_skip_correct (batch_size : Nat) (stored_hashes : List (String × String))
    (terms : List TermJson) :
    (run_phase1 Mode.incremental batch_size stored_hashes terms).flushed_terms.flatten
      = terms.filterMap (processKept Mode.incremental stored_hashes)
    ∧ (run_phase1 Mode.incremental batch_size stored_hashes terms).stats.terms_skipped
      = terms.countP (fun tj => !(processKept Mode.incremental stored_hashes tj).isSome)
    ∧ (run_phase1 Mode.incremental batch_size stored_hashes terms).stats.terms_fetched
      = terms.length := by
  unfold run_phase1
  refine ⟨?_, ?_, ?_⟩
  · rw [flushRemainder_flatten]
    have h := foldl_process_kept Mode.incremental batch_size stored_hashes terms phase1Start
    rw [show phase1Start.flushed_terms = [] from rfl,
        show phase1Start.terms_batch = [] from rfl] at h
    simpa using h
  · rw [(flushRemainder_stats _).2.1]
    have h := foldl_process_skipped Mode.incremental batch_size stored_hashes terms phase1Start
    rw [show phase1Start.stats.terms_skipped = 0 from rfl] at h
    simpa using h
  · rw [(flushRemainder_stats _).1]
    have h := foldl_process_fetched Mode.incremental batch_size stored_hashes terms phase1Start
    rw [show phase1Start.stats.terms_fetched = 0 from rfl] at h
    simpa using h

/-- C10: for every run and mode, the counters handed to the
ExecutionRecord have terms_updated equal to 0 and terms_inserted equal
to the total number of rows across all flushed term batches, because
bulk_insert_terms reports its whole row count as inserted and 0 as
updated. -/
theorem execution_counters_inserted_only (mode : Mode) (batch_size : Nat)
    (stored_hashes : List (String × String)) (terms : List TermJson) :
    (update_execution_record_counters
        (run_phase1 mode batch_size stored_hashes terms).stats).terms_updated = 0
    ∧ (update_execution_record_counters
        (run_phase1 mode batch_size stored_hashes terms).stats).terms_inserted
      = totalFlushedRows (run_phase1 mode batch_size stored_hashes terms) := by
  simp only [run_phase1, update_execution_record_counters, totalFlushedRows]
  constructor
  · rw [(flushRemainder_stats _).2.2.1]
    have h := foldl_process_updated mode batch_size stored_hashes terms phase1Start
    rw [show phase1Start.stats.terms_updated = 0 from rfl] at h
    exact h
  · have hflush := (flushRemainder_stats
      (terms.foldl (process_term mode batch_size stored_hashes) phase1Start)).2.2.2
    have hfold := foldl_process_inserted mode batch_size stored_hashes terms phase1Start
    rw [show phase1Start.flushed_terms = [] from rfl,
        show phase1Start.stats.terms_inserted = 0 from rfl] at hfold
    simp at hfold
    omega

/-- C9: every parent URL handed to the Phase 1.5 batch resolver is the
first URL of the parent-link list extracted for some fetched term: for a
term whose links section carries more than one parents reference, only
the head of its extracted URL list is ever buffered, and a URL reachable
only through the remaining positions is never fetched. -/
theorem parent_resolution_first_url_only (mode : Mode) (batch_size : Nat)
    (stored_hashes : List (String × String)) (terms : List TermJson) :
    ∀ u ∈ phase15_fetch_urls (run_phase1 mode batch_size stored_hashes terms),
      u ∈ terms.filterMap fun tj => (extract_parent_iris tj.links_parents).head? := by
  intro u hu
  unfold phase15_fetch_urls run_phase1 at hu
  rw [flushRemainder_parent_urls] at hu
  rcases foldl_process_parent_urls mode batch_size stored_hashes terms phase1Start u hu
    with h | h
  · simp [phase1Start] at h
  · exact h

/-- Witness for C9 at a concrete input: a term whose links section
carries two parent references; only the first URL is buffered for
fetching. -/
theorem parent_resolution_first_url_only_witness :
    "u1" ∈ phase15_fetch_urls (run_phase1 Mode.full 10 []
        [⟨some "EFO:1", some "iri1", some "lbl", [], [],
          ParentsLink.many [some "u1", some "u2"]⟩])
    ∧ "u1" ∈ ([⟨some "EFO:1", some "iri1", some "lbl", [], [],
          ParentsLink.many [some "u1", some "u2"]⟩] : List TermJson).filterMap
        (fun tj => (extract_parent_iris tj.links_parents).head?) :=
  ⟨by decide,
    parent_resolution_first_url_only Mode.full 10 []
      [⟨some "EFO:1", some "iri1", some "lbl", [], [],
        ParentsLink.many [some "u1", some "u2"]⟩] "u1" (by decide)⟩

end EfoPipeline
